import Mathlib

/-!
Verification of the fileshare Transfer Engine against its specification.

The development shallowly embeds the Transfer Engine of the repository:

* the sender chunk pump (startPumping in src/App.tsx lines 266-326 and
  src/unnamed/part_004 lines 1063-1132),
* the receiver event handlers (setupReceiverEvents in src/unnamed/part_004
  lines 747-855, prepareMotor lines 865-900, updateProgress lines 903-931),
* the per-chunk disk-writing receiver variant (src/App.tsx lines 685-707),
* the queue coordinator (processFileQueue / handleTransferStep,
  src/unnamed/part_004 lines 1015-1060),
* the backpressure gates (src/unnamed/part_004 lines 1106-1112 and
  readNextChunk in src/App.tsx lines 314-323).

Bytes are modelled as natural numbers, byte buffers as lists, and the
mutable refs of the source as fields of explicit state structures.  Time
(Date.now throttling, setTimeout delays) is outside the embedding; the
throttle in updateProgress only drops some UI updates and does not change
the computed values that the claims are about.
-/

set_option autoImplicit false

/-- FileDescriptor of the data model: the meta object sent by the sender
(src/unnamed/part_004 lines 1028-1035).  The source field named type is
rendered as mediaType. -/
structure FileMeta where
  name : String
  size : Nat
  mediaType : String
  deriving DecidableEq

/-- Chunk size of the turbo sender, src/unnamed/part_004 line 1065. -/
def CHUNK_SIZE_TURBO : Nat := 256 * 1024

/-- High watermark of the turbo sender, src/unnamed/part_004 line 1066. -/
def MAX_BUFFERED_AMOUNT : Nat := 64 * 1024 * 1024

/-- Drain threshold of the turbo sender, src/unnamed/part_004 line 1067. -/
def DRAIN_THRESHOLD : Nat := 8 * 1024 * 1024

/-- Chunk size of the hybrid sender, src/App.tsx line 272. -/
def APP_CHUNK_SIZE : Nat := 64 * 1024

/-- Buffer limit used by readNextChunk, src/App.tsx line 317. -/
def APP_BUFFER_LIMIT : Nat := 1024 * 1024

/-- Flush threshold of the receiver write buffer, src/unnamed/part_004
line 625. -/
def DISK_FLUSH_THRESHOLD : Nat := 15 * 1024 * 1024

/-- The sequence of binary chunks produced by the startPumping loop
(src/App.tsx lines 280-326, src/unnamed/part_004 lines 1083-1132) on the
not-yet-sent suffix of the file.  Each iteration reads the slice
file.slice(offset, offset + cs), which is the first cs bytes of the
remaining suffix, sends it, advances offset by the slice length and
continues while offset is still below file.size, i.e. while the slice was
shorter than the remainder, i.e. while cs < remaining length.  The cs = 0
guard is a modelling device for termination; both engines use a fixed
positive chunk size. -/
def pumpChunks (cs : Nat) (content : List Nat) : List (List Nat) :=
  if hcs : cs = 0 then []
  else if h : cs < content.length then
    content.take cs :: pumpChunks cs (content.drop cs)
  else [content.take cs]
termination_by content.length
decreasing_by simp only [List.length_drop]; omega

/-- The chunk lengths produced by the same loop, as a function of the
remaining byte count alone: the slice file.slice(offset, offset + cs) has
byteLength min cs remaining. -/
def pumpChunkSizes (cs r : Nat) : List Nat :=
  if hcs : cs = 0 then []
  else if h : cs < r then cs :: pumpChunkSizes cs (r - cs)
  else [r]
termination_by r
decreasing_by omega

/-- The chunk pump under a schedule of send outcomes, embedding the
try/catch of fileReader.onload (src/App.tsx lines 280-312,
src/unnamed/part_004 lines 1083-1124): a failed conn.send leaves offset
unchanged and setTimeout(readNextChunk, 50) retries the same slice; a
successful send advances offset by the slice length and the loop continues
while offset is below file.size. -/
def pumpSched (cs : Nat) : List Bool → List Nat → List (List Nat)
  | [], _ => []
  | true :: sch, rest =>
      rest.take cs :: (if cs < rest.length then pumpSched cs sch (rest.drop cs) else [])
  | false :: sch, rest => pumpSched cs sch rest

/-- Messages appearing on the channel from the sender during one file,
lengths only: binary chunks followed by the end control message
(src/unnamed/part_004 line 1116, src/App.tsx line 305). -/
inductive WireMsg where
  | chunkMsg (len : Nat)
  | endMsg
  deriving DecidableEq

/-- The wire trace of one pumped file: every chunk, then exactly one end
message. -/
def senderWire (sizes : List Nat) : List WireMsg :=
  sizes.map WireMsg.chunkMsg ++ [WireMsg.endMsg]

/-- progressPercent as computed by updateProgress (src/unnamed/part_004
line 910, src/App.tsx line 215): Math.min(100, Math.round((bytes / total)
* 100)), with Math.round(x) = floor(x + 1/2) written over exact rational
arithmetic as (200 * bytes + total) / (2 * total) in natural division. -/
def progressPercent (bytes total : Nat) : Nat :=
  min 100 ((200 * bytes + total) / (2 * total))

/-- Receiver state of src/unnamed/part_004: the refs and state flags used
by setupReceiverEvents (lines 604-625).  motor stands for
writableStreamRef.current being non-null; diskWrites records the byte
blocks handed to the Disk Sink writable stream, in order. -/
structure ReceiverState where
  meta : Option FileMeta
  chunks : List (List Nat)
  bytesReceived : Nat
  writeBuffer : List (List Nat)
  bufferSize : Nat
  motor : Bool
  diskWrites : List (List Nat)
  isMotorReady : Bool
  isFileSaved : Bool
  isTransferComplete : Bool
  transferProgress : Nat
  deriving DecidableEq

/-- The receiver before any message: empty refs, no session. -/
def emptyReceiver : ReceiverState :=
  { meta := none, chunks := [], bytesReceived := 0, writeBuffer := [],
    bufferSize := 0, motor := false, diskWrites := [], isMotorReady := false,
    isFileSaved := false, isTransferComplete := false, transferProgress := 0 }

/-- The meta branch of setupReceiverEvents (src/unnamed/part_004 lines
780-816): store the descriptor, reset all counters and buffers, reset the
confirmation flags, close any still-open stream. -/
def receiverOnMeta (s : ReceiverState) (m : FileMeta) : ReceiverState :=
  { s with meta := some m, chunks := [], bytesReceived := 0,
           writeBuffer := [], bufferSize := 0,
           isTransferComplete := false, isMotorReady := false,
           isFileSaved := false, transferProgress := 0, motor := false }

/-- prepareMotor (src/unnamed/part_004 lines 865-900): acquire a writable
stream when the save picker succeeds (motor mode), otherwise continue in
fallback mode; in every branch set isMotorReady and send ready_to_receive
(the returned Bool). -/
def prepareMotor (s : ReceiverState) (sinkGranted : Bool) : ReceiverState × Bool :=
  ({ s with motor := sinkGranted, isMotorReady := true }, true)

/-- The binary branch of setupReceiverEvents (src/unnamed/part_004 lines
750-772).  Motor mode: push the chunk on the write buffer, add its length
to bufferSize and bytesReceived, and when the buffer reaches
DISK_FLUSH_THRESHOLD write it to the stream as one consolidated blob and
clear it.  Fallback: push the chunk on chunksRef and add its length to
bytesReceived.  No branch consults isMotorReady. -/
def receiverOnBinary (s : ReceiverState) (c : List Nat) : ReceiverState :=
  if s.motor then
    if DISK_FLUSH_THRESHOLD ≤ s.bufferSize + c.length then
      { s with writeBuffer := [], bufferSize := 0,
               bytesReceived := s.bytesReceived + c.length,
               diskWrites := s.diskWrites ++ [(s.writeBuffer ++ [c]).flatten] }
    else
      { s with writeBuffer := s.writeBuffer ++ [c],
               bufferSize := s.bufferSize + c.length,
               bytesReceived := s.bytesReceived + c.length }
  else
    { s with chunks := s.chunks ++ [c],
             bytesReceived := s.bytesReceived + c.length }

/-- The flush step of the end branch of setupReceiverEvents
(src/unnamed/part_004 lines 822-828): write the remaining buffer contents
to the stream when in motor mode and the buffer is nonempty. -/
def receiverEndFlush (s : ReceiverState) : ReceiverState :=
  if s.motor ∧ s.writeBuffer ≠ [] then
    { s with writeBuffer := [], bufferSize := 0,
             diskWrites := s.diskWrites ++ [s.writeBuffer.flatten] }
  else s

/-- The close step of the end branch (src/unnamed/part_004 lines 830-834):
close the stream and mark the file saved when a stream is open. -/
def receiverEndClose (s : ReceiverState) : ReceiverState :=
  if s.motor then { s with motor := false, isFileSaved := true } else s

/-- The end branch of setupReceiverEvents (src/unnamed/part_004 lines
818-847): flush the remaining write buffer, close the stream, set progress
to 100 and the session complete, and send transfer_complete_ack (the
returned Bool) in every mode. -/
def receiverOnEnd (s : ReceiverState) : ReceiverState × Bool :=
  ({ receiverEndClose (receiverEndFlush s) with
      transferProgress := 100, isTransferComplete := true }, true)

/-- updateProgress (src/unnamed/part_004 lines 903-931, src/App.tsx lines
207-228): recompute the clamped rounded percentage from the byte counter
and the announced size; a missing descriptor returns unchanged. -/
def updateProgress (s : ReceiverState) : ReceiverState :=
  match s.meta with
  | none => s
  | some m => { s with transferProgress := progressPercent s.bytesReceived m.size }

/-- Process a list of binary chunks in arrival order. -/
def runReceiver (s : ReceiverState) (cs : List (List Nat)) : ReceiverState :=
  cs.foldl receiverOnBinary s

/-- The receiver session right after meta and confirmation: the state in
which the sender is told to start pumping. -/
def startSession (m : FileMeta) (sinkGranted : Bool) : ReceiverState :=
  (prepareMotor (receiverOnMeta emptyReceiver m) sinkGranted).1

/-- Receiver state of the per-chunk writing variant (src/App.tsx lines
678-707): no batching buffer, each chunk is written to the stream
directly. -/
structure StreamState where
  motor : Bool
  diskBytes : List Nat
  chunks : List (List Nat)
  bytesReceived : Nat
  deriving DecidableEq

/-- The binary branch of that variant (src/App.tsx lines 688-707).  Motor
mode: await writableStream.write(chunk) and on success add the length to
bytesReceived; on a write error push the chunk on chunksRef - the stream
is left in place and bytesReceived is not advanced.  Without a stream:
push on chunksRef and count the bytes. -/
def receiverOnBinaryWrite (s : StreamState) (c : List Nat) (writeOk : Bool) : StreamState :=
  if s.motor then
    if writeOk then
      { s with diskBytes := s.diskBytes ++ c,
               bytesReceived := s.bytesReceived + c.length }
    else
      { s with chunks := s.chunks ++ [c] }
  else
    { s with chunks := s.chunks ++ [c],
             bytesReceived := s.bytesReceived + c.length }

/-- Inbound control messages seen by the per-file listener
handleTransferStep (src/unnamed/part_004 lines 1041-1057). -/
inductive CoordMsg where
  | readyMsg
  | ackMsg
  deriving DecidableEq

/-- Outbound messages of the queue coordinator, tagged with the file
index. -/
inductive CoordOut where
  | metaOut (i : Nat)
  | chunkOut (i : Nat) (len : Nat)
  | endOut (i : Nat)
  deriving DecidableEq

/-- Queue coordinator state: the ordered file queue (sizes) and the index
of the file in flight (processFileQueue, src/unnamed/part_004 lines
1015-1060). -/
structure CoordState where
  files : List Nat
  index : Nat
  deriving DecidableEq

/-- One step of the per-file listener handleTransferStep
(src/unnamed/part_004 lines 1041-1057): on ready_to_receive, startPumping
emits the chunks of the current file followed by end; on
transfer_complete_ack, the listener is torn down and (after the 500 ms
settling delay, which is timing and outside the embedding)
processFileQueue(index + 1) runs, which sends the meta of the next file
when one remains. -/
def handleTransferStep (cs : Nat) (s : CoordState) (m : CoordMsg) : CoordState × List CoordOut :=
  match m with
  | CoordMsg.readyMsg =>
      match s.files[s.index]? with
      | some size =>
          (s, (pumpChunkSizes cs size).map (CoordOut.chunkOut s.index) ++ [CoordOut.endOut s.index])
      | none => (s, [])
  | CoordMsg.ackMsg =>
      if s.index + 1 < s.files.length then
        ({ s with index := s.index + 1 }, [CoordOut.metaOut (s.index + 1)])
      else
        ({ s with index := s.index + 1 }, [])

/-- Events of the pumping loop as seen by the channel buffer: the channel
draining some bytes, or the sender sending a chunk. -/
inductive PumpEv where
  | drain (d : Nat)
  | send (len : Nat)
  deriving DecidableEq

/-- The bufferedAmount evolution of the turbo pump (src/unnamed/part_004
lines 1106-1112): a chunk send is admitted only when the observed
bufferedAmount is below MAX_BUFFERED_AMOUNT (the waitForDrain path admits
only below DRAIN_THRESHOLD, which is stricter, so the gate below covers
both) and every chunk is at most CHUNK_SIZE_TURBO long; an inadmissible
send yields none. -/
def pumpBufferRun : Nat → List PumpEv → Option Nat
  | b, [] => some b
  | b, PumpEv.drain d :: evs => pumpBufferRun (b - d) evs
  | b, PumpEv.send len :: evs =>
      if b < MAX_BUFFERED_AMOUNT ∧ len ≤ CHUNK_SIZE_TURBO then pumpBufferRun (b + len) evs
      else none

/-- The gate of readNextChunk (src/App.tsx lines 314-323): the read is
deferred while bufferedAmount exceeds APP_BUFFER_LIMIT, so a read is
admitted exactly when bufferedAmount is at or below the limit. -/
def readNextChunkGate (b : Nat) : Bool :=
  if APP_BUFFER_LIMIT < b then false else true

/-! ### Lemmas about the sender chunk pump -/

/-- Concatenating the pumped chunks reproduces the file content. -/
theorem pumpChunks_flatten (cs : Nat) (hcs : 0 < cs) (content : List Nat) :
    (pumpChunks cs content).flatten = content := by
  have H : ∀ n content, List.length content ≤ n →
      (pumpChunks cs content).flatten = content := by
    intro n
    induction n with
    | zero =>
      intro content hlen
      have h0 : content = [] := List.eq_nil_of_length_eq_zero (Nat.le_zero.mp hlen)
      subst h0
      rw [pumpChunks.eq_def]
      have hne : ¬ cs = 0 := by omega
      simp [hne]
    | succ n ih =>
      intro content hlen
      rw [pumpChunks.eq_def]
      have hne : ¬ cs = 0 := by omega
      simp only [hne, dite_false]
      split
      · next h =>
        have hrec := ih (content.drop cs) (by simp only [List.length_drop]; omega)
        simp only [List.flatten_cons, hrec, List.take_append_drop]
      · next h =>
        simp [List.take_of_length_le (by omega : content.length ≤ cs)]
  exact H content.length content le_rfl

/-- The pumped chunk lengths depend only on the remaining byte count. -/
theorem pumpChunks_map_length (cs : Nat) (hcs : 0 < cs) (content : List Nat) :
    (pumpChunks cs content).map List.length = pumpChunkSizes cs content.length := by
  have H : ∀ n content, List.length content ≤ n →
      (pumpChunks cs content).map List.length = pumpChunkSizes cs content.length := by
    intro n
    induction n with
    | zero =>
      intro content hlen
      have h0 : content = [] := List.eq_nil_of_length_eq_zero (Nat.le_zero.mp hlen)
      subst h0
      rw [pumpChunks.eq_def, pumpChunkSizes.eq_def]
      have hne : ¬ cs = 0 := by omega
      simp [hne]
    | succ n ih =>
      intro content hlen
      rw [pumpChunks.eq_def, pumpChunkSizes.eq_def]
      have hne : ¬ cs = 0 := by omega
      simp only [hne, dite_false]
      split
      · next h =>
        have hrec := ih (content.drop cs) (by simp only [List.length_drop]; omega)
        simp only [List.map_cons, List.length_take, hrec, List.length_drop]
        congr 1
        omega
      · next h =>
        simp only [List.map_cons, List.map_nil, List.length_take]
        congr 1
        omega
  exact H content.length content le_rfl

/-- Closed form of the chunk lengths when the size is not a multiple of
the chunk size: full chunks followed by one final chunk of size mod
chunk size. -/
theorem pumpChunkSizes_eq (cs : Nat) (hcs : 0 < cs) :
    ∀ r, r % cs ≠ 0 →
      pumpChunkSizes cs r = List.replicate (r / cs) cs ++ [r % cs] := by
  have H : ∀ n r, r ≤ n → r % cs ≠ 0 →
      pumpChunkSizes cs r = List.replicate (r / cs) cs ++ [r % cs] := by
    intro n
    induction n with
    | zero =>
      intro r hr hmod
      have : r = 0 := Nat.le_zero.mp hr
      subst this
      simp at hmod
    | succ n ih =>
      intro r hr hmod
      rw [pumpChunkSizes.eq_def]
      have hne : ¬ cs = 0 := by omega
      simp only [hne, dite_false]
      split
      · next h =>
        have heq : r - cs + cs = r := by omega
        have hmod2 : (r - cs) % cs ≠ 0 := by
          have h2 := Nat.add_mod_right (r - cs) cs
          rw [heq] at h2
          omega
        have hrec := ih (r - cs) (by omega) hmod2
        rw [hrec]
        have hdiv : (r - cs + cs) / cs = (r - cs) / cs + 1 := Nat.add_div_right _ hcs
        rw [heq] at hdiv
        have hmod3 : (r - cs + cs) % cs = (r - cs) % cs := Nat.add_mod_right _ _
        rw [heq] at hmod3
        rw [hdiv, hmod3, List.replicate_succ]
        simp
      · next h =>
        have hlt : r < cs := by
          rcases Nat.lt_or_ge r cs with h1 | h1
          · exact h1
          · have : r = cs := by omega
            subst this
            simp [Nat.mod_self] at hmod
        rw [Nat.mod_eq_of_lt hlt, Nat.div_eq_of_lt hlt]
        simp
  intro r
  exact H r r le_rfl

/-- Sum of the pumped chunk lengths in the non-exact case. -/
theorem pumpChunkSizes_sum (cs r : Nat) (hcs : 0 < cs) (hmod : r % cs ≠ 0) :
    (pumpChunkSizes cs r).sum = r := by
  rw [pumpChunkSizes_eq cs hcs r hmod, List.sum_append, List.sum_replicate, smul_eq_mul]
  simp only [List.sum_cons, List.sum_nil, Nat.add_zero]
  rw [Nat.mul_comm]
  exact Nat.div_add_mod r cs

/-- One end message per pumped file. -/
theorem senderWire_end_count (sizes : List Nat) :
    (senderWire sizes).count WireMsg.endMsg = 1 := by
  unfold senderWire
  rw [List.count_append]
  have h0 : (sizes.map WireMsg.chunkMsg).count WireMsg.endMsg = 0 := by
    rw [List.count_eq_zero]
    intro hmem
    rcases List.mem_map.mp hmem with ⟨a, _, ha⟩
    cases ha
  simp [h0, List.count_cons]

/-- The chunks sent under any schedule of send outcomes are exactly the
leading successful prefix of the canonical chunk sequence: failed sends
are invisible in the byte stream. -/
theorem pumpSched_eq_take (cs : Nat) (hcs : 0 < cs) :
    ∀ (sch : List Bool) (rest : List Nat),
      pumpSched cs sch rest = (pumpChunks cs rest).take (sch.count true) := by
  intro sch
  induction sch with
  | nil => intro rest; simp [pumpSched]
  | cons ok sch ih =>
    intro rest
    have hne : ¬ cs = 0 := by omega
    cases ok with
    | false =>
      have hcount : (false :: sch).count true = sch.count true := by simp
      rw [hcount]
      simpa [pumpSched] using ih rest
    | true =>
      have hcount : (true :: sch).count true = sch.count true + 1 := by simp
      rw [hcount, pumpChunks.eq_def]
      simp only [hne, dite_false]
      by_cases h : cs < rest.length
      · simp only [pumpSched, h, if_true, dite_true, List.take_succ_cons, ih]
      · simp only [pumpSched, h, if_false, dite_false, List.take_succ_cons, List.take_nil]

/-! ### Lemmas about the part_004 receiver -/

/-- Every binary chunk adds exactly its length to the byte counter, in
motor mode and in fallback mode alike. -/
theorem receiverOnBinary_bytes (s : ReceiverState) (c : List Nat) :
    (receiverOnBinary s c).bytesReceived = s.bytesReceived + c.length := by
  unfold receiverOnBinary
  split
  · split <;> rfl
  · rfl

/-- Binary chunks never change the mode. -/
theorem receiverOnBinary_motor (s : ReceiverState) (c : List Nat) :
    (receiverOnBinary s c).motor = s.motor := by
  unfold receiverOnBinary
  split
  · split <;> rfl
  · rfl

/-- Binary chunks never change the stored descriptor. -/
theorem receiverOnBinary_meta (s : ReceiverState) (c : List Nat) :
    (receiverOnBinary s c).meta = s.meta := by
  unfold receiverOnBinary
  split
  · split <;> rfl
  · rfl

/-- Processing a chunk list adds the total chunk length to the byte
counter. -/
theorem runReceiver_bytes (cs : List (List Nat)) :
    ∀ s : ReceiverState,
      (runReceiver s cs).bytesReceived = s.bytesReceived + (cs.map List.length).sum := by
  induction cs with
  | nil => intro s; simp [runReceiver]
  | cons c rest ih =>
    intro s
    have hstep : runReceiver s (c :: rest) = runReceiver (receiverOnBinary s c) rest := rfl
    rw [hstep, ih, receiverOnBinary_bytes]
    simp [Nat.add_assoc]

/-- Processing a chunk list preserves the mode. -/
theorem runReceiver_motor (cs : List (List Nat)) :
    ∀ s : ReceiverState, (runReceiver s cs).motor = s.motor := by
  induction cs with
  | nil => intro s; rfl
  | cons c rest ih =>
    intro s
    have hstep : runReceiver s (c :: rest) = runReceiver (receiverOnBinary s c) rest := rfl
    rw [hstep, ih, receiverOnBinary_motor]

/-- In motor mode one binary chunk appends its bytes to the union of the
flushed writes and the pending write buffer. -/
theorem receiverOnBinary_motor_bytesSeen (s : ReceiverState) (c : List Nat)
    (h : s.motor = true) :
    (receiverOnBinary s c).diskWrites.flatten ++ (receiverOnBinary s c).writeBuffer.flatten
      = s.diskWrites.flatten ++ s.writeBuffer.flatten ++ c := by
  unfold receiverOnBinary
  rw [h]
  simp only [if_true]
  split
  · simp [List.flatten_append, List.append_assoc]
  · simp [List.flatten_append, List.append_assoc]

/-- In motor mode the flushed writes plus the pending buffer accumulate
exactly the received bytes, in order. -/
theorem runReceiver_motor_bytesSeen (cs : List (List Nat)) :
    ∀ s : ReceiverState, s.motor = true →
      (runReceiver s cs).diskWrites.flatten ++ (runReceiver s cs).writeBuffer.flatten
        = s.diskWrites.flatten ++ s.writeBuffer.flatten ++ cs.flatten := by
  induction cs with
  | nil => intro s _; simp [runReceiver]
  | cons c rest ih =>
    intro s hm
    have hstep : runReceiver s (c :: rest) = runReceiver (receiverOnBinary s c) rest := rfl
    rw [hstep, ih _ (by rw [receiverOnBinary_motor]; exact hm),
        receiverOnBinary_motor_bytesSeen s c hm]
    simp [List.append_assoc]

/-- In fallback mode the chunk list accumulates every received chunk in
order. -/
theorem runReceiver_fallback_chunks (cs : List (List Nat)) :
    ∀ s : ReceiverState, s.motor = false →
      (runReceiver s cs).chunks = s.chunks ++ cs := by
  induction cs with
  | nil => intro s _; simp [runReceiver]
  | cons c rest ih =>
    intro s hm
    have hstep : runReceiver s (c :: rest) = runReceiver (receiverOnBinary s c) rest := rfl
    rw [hstep, ih _ (by rw [receiverOnBinary_motor]; exact hm)]
    unfold receiverOnBinary
    rw [hm]
    simp

/-- The end handler never changes the byte counter. -/
theorem receiverOnEnd_bytes (s : ReceiverState) :
    (receiverOnEnd s).1.bytesReceived = s.bytesReceived := by
  unfold receiverOnEnd receiverEndClose receiverEndFlush
  split <;> split <;> rfl

/-- The end handler never changes the fallback chunk list. -/
theorem receiverOnEnd_chunks (s : ReceiverState) :
    (receiverOnEnd s).1.chunks = s.chunks := by
  unfold receiverOnEnd receiverEndClose receiverEndFlush
  split <;> split <;> rfl

/-- The end handler always sends the transfer complete ack. -/
theorem receiverOnEnd_ack (s : ReceiverState) :
    (receiverOnEnd s).2 = true := rfl

/-- The end handler always sets the progress display to 100. -/
theorem receiverOnEnd_progress (s : ReceiverState) :
    (receiverOnEnd s).1.transferProgress = 100 := rfl

/-- In motor mode the end handler flushes the remaining write buffer, so
afterwards the disk holds everything that had been received. -/
theorem receiverOnEnd_motor_flush (s : ReceiverState) (h : s.motor = true) :
    (receiverOnEnd s).1.diskWrites.flatten = s.diskWrites.flatten ++ s.writeBuffer.flatten
      ∧ (receiverOnEnd s).1.writeBuffer = [] ∧ (receiverOnEnd s).1.motor = false
      ∧ (receiverOnEnd s).1.isFileSaved = true := by
  unfold receiverOnEnd receiverEndClose receiverEndFlush
  by_cases hb : s.writeBuffer = []
  · have hcond : ¬ (s.motor = true ∧ s.writeBuffer ≠ []) := by simp [hb]
    rw [if_neg hcond]
    simp [h, hb]
  · have hcond : (s.motor = true ∧ s.writeBuffer ≠ []) := ⟨h, hb⟩
    rw [if_pos hcond]
    simp [h]

/-- In fallback mode the end handler issues no disk write. -/
theorem receiverOnEnd_fallback (s : ReceiverState) (h : s.motor = false) :
    (receiverOnEnd s).1.diskWrites = s.diskWrites
      ∧ (receiverOnEnd s).1.chunks = s.chunks := by
  unfold receiverOnEnd receiverEndClose receiverEndFlush
  have hcond : ¬ (s.motor = true ∧ s.writeBuffer ≠ []) := by simp [h]
  rw [if_neg hcond]
  simp [h]

/-! ### Backpressure invariant for the turbo pump -/

/-- Gated sends keep the buffered amount below the high watermark plus one
chunk, from any start below that bound. -/
theorem pumpBufferRun_inv :
    ∀ (evs : List PumpEv) (b0 b : Nat),
      b0 < MAX_BUFFERED_AMOUNT + CHUNK_SIZE_TURBO →
      pumpBufferRun b0 evs = some b →
      b < MAX_BUFFERED_AMOUNT + CHUNK_SIZE_TURBO := by
  intro evs
  induction evs with
  | nil =>
    intro b0 b h0 hrun
    simp only [pumpBufferRun, Option.some_inj] at hrun
    omega
  | cons ev evs ih =>
    intro b0 b h0 hrun
    cases ev with
    | drain d =>
      simp only [pumpBufferRun] at hrun
      exact ih (b0 - d) b (by omega) hrun
    | send len =>
      simp only [pumpBufferRun] at hrun
      by_cases hc : b0 < MAX_BUFFERED_AMOUNT ∧ len ≤ CHUNK_SIZE_TURBO
      · rw [if_pos hc] at hrun
        exact ih (b0 + len) b (by omega) hrun
      · rw [if_neg hc] at hrun
        cases hrun

/-! ### The claims -/

/-- Claim C1: for every session that completes successfully, the receiver
byte counter equals the descriptor size exactly and the reconstructed
artifact - the flattened disk writes in motor mode, the flattened fallback
chunk list otherwise - is byte for byte the sender content. -/
theorem transfer_C1_byte_conservation (m : FileMeta) (sink : Bool)
    (content : List Nat) (cs : Nat) (hcs : 0 < cs)
    (hsize : m.size = content.length) :
    (receiverOnEnd (runReceiver (startSession m sink) (pumpChunks cs content))).1.bytesReceived = m.size
    ∧ (sink = true →
        (receiverOnEnd (runReceiver (startSession m sink) (pumpChunks cs content))).1.diskWrites.flatten = content)
    ∧ (sink = false →
        (receiverOnEnd (runReceiver (startSession m sink) (pumpChunks cs content))).1.chunks.flatten = content) := by
  have hbytes : (runReceiver (startSession m sink) (pumpChunks cs content)).bytesReceived
      = content.length := by
    rw [runReceiver_bytes]
    have hsum : ((pumpChunks cs content).map List.length).sum = content.length := by
      rw [← List.length_flatten, pumpChunks_flatten cs hcs]
    rw [hsum]
    simp [startSession, prepareMotor, receiverOnMeta, emptyReceiver]
  refine ⟨?_, ?_, ?_⟩
  · rw [receiverOnEnd_bytes, hbytes, hsize]
  · intro hs
    have hm0 : (startSession m sink).motor = true := by
      simp [startSession, prepareMotor, hs]
    have hm : (runReceiver (startSession m sink) (pumpChunks cs content)).motor = true := by
      rw [runReceiver_motor]; exact hm0
    have hflush := receiverOnEnd_motor_flush _ hm
    rw [hflush.1, runReceiver_motor_bytesSeen (pumpChunks cs content) _ hm0]
    simp [startSession, prepareMotor, receiverOnMeta, emptyReceiver,
          pumpChunks_flatten cs hcs]
  · intro hs
    have hm0 : (startSession m sink).motor = false := by
      simp [startSession, prepareMotor, hs]
    rw [receiverOnEnd_chunks, runReceiver_fallback_chunks _ _ hm0]
    simp [startSession, prepareMotor, receiverOnMeta, emptyReceiver,
          pumpChunks_flatten cs hcs]

/-- Witness for C1: a five byte file pumped in two byte chunks through a
fallback session ends with the byte counter at the announced size. -/
theorem transfer_C1_witness :
    (0 : Nat) < 2
    ∧ (FileMeta.mk "f" 5 "bin").size = ([1, 2, 3, 4, 5] : List Nat).length
    ∧ (receiverOnEnd (runReceiver (startSession (FileMeta.mk "f" 5 "bin") false)
        (pumpChunks 2 [1, 2, 3, 4, 5]))).1.bytesReceived = (FileMeta.mk "f" 5 "bin").size :=
  ⟨by decide, by decide,
   (transfer_C1_byte_conservation (FileMeta.mk "f" 5 "bin") false [1, 2, 3, 4, 5] 2
      (by decide) (by decide)).1⟩

/-- A reachable fallback session with three received bytes: meta, fallback
confirmation, one binary chunk. -/
def fallbackSession : ReceiverState :=
  receiverOnBinary (startSession (FileMeta.mk "f" 3 "bin") false) [1, 2, 3]

/-- Counterexample to C2: in fallback mode the end handler sends the
transfer complete ack while every received byte still sits in the
in-memory chunk accumulator and nothing was ever handed to a Disk Sink. -/
theorem transfer_C2_counterexample :
    (receiverOnEnd fallbackSession).2 = true
    ∧ fallbackSession.bytesReceived = 3
    ∧ (receiverOnEnd fallbackSession).1.chunks = [[1, 2, 3]]
    ∧ (receiverOnEnd fallbackSession).1.diskWrites = [] := by decide

/-- Claim C2 amended: in motor mode the ack is sent only after the
remaining write buffer is flushed to the Disk Sink (and the stream
closed); in fallback mode the ack is sent at end while the bytes remain in
memory. -/
theorem transfer_C2_amended (s : ReceiverState) (h : s.motor = true) :
    (receiverOnEnd s).2 = true
    ∧ (receiverOnEnd s).1.writeBuffer = []
    ∧ (receiverOnEnd s).1.diskWrites.flatten
        = s.diskWrites.flatten ++ s.writeBuffer.flatten
    ∧ (receiverOnEnd s).1.motor = false := by
  have hf := receiverOnEnd_motor_flush s h
  exact ⟨receiverOnEnd_ack s, hf.2.1, hf.1, hf.2.2.1⟩

/-- A reachable motor session with one buffered chunk. -/
def motorSession : ReceiverState :=
  receiverOnBinary (startSession (FileMeta.mk "f" 2 "bin") true) [7, 8]

/-- Witness for the amended C2: a concrete motor session acks at end with
an empty write buffer. -/
theorem transfer_C2_witness :
    motorSession.motor = true
    ∧ (receiverOnEnd motorSession).2 = true
    ∧ (receiverOnEnd motorSession).1.writeBuffer = [] :=
  ⟨by decide, (transfer_C2_amended motorSession (by decide)).1,
   (transfer_C2_amended motorSession (by decide)).2.1⟩

/-- Claim C3: the meta message of file i + 1 is emitted by the per-file
listener only while the ack of file i is being consumed - never in
response to any other message, so never before that ack is received. -/
theorem transfer_C3_queue_order (cs : Nat) (s : CoordState) (m : CoordMsg) (i : Nat)
    (h : CoordOut.metaOut (i + 1) ∈ (handleTransferStep cs s m).2) :
    m = CoordMsg.ackMsg ∧ s.index = i ∧ i + 1 < s.files.length := by
  cases m with
  | readyMsg =>
    exfalso
    unfold handleTransferStep at h
    cases hg : s.files[s.index]? with
    | none => rw [hg] at h; simp at h
    | some size =>
      rw [hg] at h
      rcases List.mem_append.mp h with h1 | h1
      · rcases List.mem_map.mp h1 with ⟨a, _, ha⟩
        cases ha
      · rcases List.mem_singleton.mp h1
  | ackMsg =>
    unfold handleTransferStep at h
    by_cases hlt : s.index + 1 < s.files.length
    · rw [if_pos hlt] at h
      have heq := List.mem_singleton.mp h
      have : i + 1 = s.index + 1 := by cases heq; rfl
      refine ⟨rfl, by omega, by omega⟩
    · rw [if_neg hlt] at h
      simp at h

/-- Witness for C3: with a two file queue at index 0, the ack makes the
listener emit the meta of file 1. -/
theorem transfer_C3_witness :
    CoordOut.metaOut 1 ∈ (handleTransferStep 2 (CoordState.mk [5, 7] 0) CoordMsg.ackMsg).2
    ∧ CoordMsg.ackMsg = CoordMsg.ackMsg
    ∧ (CoordState.mk [5, 7] 0).index = 0
    ∧ 0 + 1 < (CoordState.mk [5, 7] 0).files.length :=
  ⟨by decide,
   (transfer_C3_queue_order 2 (CoordState.mk [5, 7] 0) CoordMsg.ackMsg 0 (by decide)).1,
   (transfer_C3_queue_order 2 (CoordState.mk [5, 7] 0) CoordMsg.ackMsg 0 (by decide)).2.1,
   (transfer_C3_queue_order 2 (CoordState.mk [5, 7] 0) CoordMsg.ackMsg 0 (by decide)).2.2⟩

/-- Counterexample to C4: readNextChunk admits a read when bufferedAmount
equals the 1 MB limit exactly, which is not strictly below it, and after a
full chunk is sent from there the buffered amount equals (is not strictly
below) the limit plus one chunk size. -/
theorem transfer_C4_counterexample :
    readNextChunkGate APP_BUFFER_LIMIT = true
    ∧ ¬ (APP_BUFFER_LIMIT < APP_BUFFER_LIMIT)
    ∧ ¬ (APP_BUFFER_LIMIT + APP_CHUNK_SIZE < APP_BUFFER_LIMIT + APP_CHUNK_SIZE) := by
  decide

/-- Claim C4 amended: the turbo pump keeps bufferedAmount strictly below
MAX_BUFFERED_AMOUNT plus one chunk at every point of a session, while the
hybrid readNextChunk gate admits reads at the limit, giving the
non-strict bound limit plus one chunk size. -/
theorem transfer_C4_amended :
    (∀ (evs : List PumpEv) (b : Nat), pumpBufferRun 0 evs = some b →
        b < MAX_BUFFERED_AMOUNT + CHUNK_SIZE_TURBO)
    ∧ (∀ b len : Nat, readNextChunkGate b = true → len ≤ APP_CHUNK_SIZE →
        b + len ≤ APP_BUFFER_LIMIT + APP_CHUNK_SIZE) := by
  constructor
  · intro evs b hrun
    refine pumpBufferRun_inv evs 0 b ?_ hrun
    unfold MAX_BUFFERED_AMOUNT CHUNK_SIZE_TURBO
    omega
  · intro b len hg hlen
    unfold readNextChunkGate at hg
    by_cases hb : APP_BUFFER_LIMIT < b
    · rw [if_pos hb] at hg
      cases hg
    · omega

/-- Witness for the amended C4: a concrete trace and a concrete gated
read. -/
theorem transfer_C4_witness :
    pumpBufferRun 0 [PumpEv.send 100] = some 100
    ∧ 100 < MAX_BUFFERED_AMOUNT + CHUNK_SIZE_TURBO
    ∧ readNextChunkGate 1048576 = true
    ∧ 65536 ≤ APP_CHUNK_SIZE
    ∧ 1048576 + 65536 ≤ APP_BUFFER_LIMIT + APP_CHUNK_SIZE :=
  ⟨by decide, transfer_C4_amended.1 [PumpEv.send 100] 100 (by decide),
   by decide, by decide, transfer_C4_amended.2 1048576 65536 (by decide) (by decide)⟩

/-- Counterexample to C5: with an announced size of 65536 bytes and only
65209 bytes received, updateProgress already reports 100 - the rounded
percentage reaches 100 strictly before the byte counter reaches the size
(the double precision computation of the source yields exactly
99.50103759765625 here, which Math.round takes to 100). -/
theorem transfer_C5_counterexample :
    (updateProgress { emptyReceiver with
        meta := some (FileMeta.mk "f" 65536 "bin"),
        bytesReceived := 65209 }).transferProgress = 100
    ∧ 65209 < 65536 := by decide

/-- Claim C5 amended: progressPercent is monotone in the byte counter for
a fixed size (so non-decreasing over a session), equals 100 exactly when
the received bytes reach 99.5 percent of the size - which can happen
strictly before end - and the end handler pins the display to 100. -/
theorem transfer_C5_amended :
    (∀ t b1 b2 : Nat, b1 ≤ b2 → progressPercent b1 t ≤ progressPercent b2 t)
    ∧ (∀ b t : Nat, 0 < t → (progressPercent b t = 100 ↔ 199 * t ≤ 200 * b))
    ∧ (∀ s : ReceiverState, (receiverOnEnd s).1.transferProgress = 100) := by
  refine ⟨?_, ?_, receiverOnEnd_progress⟩
  · intro t b1 b2 hb
    unfold progressPercent
    exact min_le_min (le_refl 100) (Nat.div_le_div_right (by omega))
  · intro b t ht
    unfold progressPercent
    constructor
    · intro h
      have hx : 100 ≤ (200 * b + t) / (2 * t) := by
        rcases Nat.le_total 100 ((200 * b + t) / (2 * t)) with h1 | h1
        · exact h1
        · rw [min_eq_right h1] at h
          omega
      have h2 := (Nat.le_div_iff_mul_le (by omega : 0 < 2 * t)).mp hx
      omega
    · intro h
      have hx : 100 ≤ (200 * b + t) / (2 * t) :=
        (Nat.le_div_iff_mul_le (by omega : 0 < 2 * t)).mpr (by omega)
      rw [min_eq_left hx]

/-- Witness for the amended C5 at concrete inputs. -/
theorem transfer_C5_witness :
    (3 : Nat) ≤ 7
    ∧ progressPercent 3 10 ≤ progressPercent 7 10
    ∧ (0 : Nat) < 200
    ∧ (progressPercent 199 200 = 100 ↔ 199 * 200 ≤ 200 * 199) :=
  ⟨by decide, transfer_C5_amended.1 10 3 7 (by decide), by decide,
   transfer_C5_amended.2.1 199 200 (by decide)⟩

/-- Counterexample to C6: right after meta, before any confirmation
(isMotorReady is still false), an arriving binary chunk is accepted - it
is appended to the fallback accumulator and counted - rather than leaving
the buffers and the byte counter unchanged. -/
theorem transfer_C6_counterexample :
    (receiverOnMeta emptyReceiver (FileMeta.mk "f" 6 "bin")).isMotorReady = false
    ∧ (receiverOnMeta emptyReceiver (FileMeta.mk "f" 6 "bin")).bytesReceived = 0
    ∧ (receiverOnMeta emptyReceiver (FileMeta.mk "f" 6 "bin")).chunks = []
    ∧ (receiverOnBinary (receiverOnMeta emptyReceiver (FileMeta.mk "f" 6 "bin")) [9, 9]).bytesReceived = 2
    ∧ (receiverOnBinary (receiverOnMeta emptyReceiver (FileMeta.mk "f" 6 "bin")) [9, 9]).chunks = [[9, 9]] := by
  decide

/-- Claim C6 amended: the binary branch never consults the confirmation
flag; whenever no stream is open - which includes the whole window between
meta and confirmation - a binary chunk is appended to the fallback
accumulator and counted.  Not losing bytes before confirmation relies on
the sender not pumping until ready_to_receive, not on a receiver-side
gate. -/
theorem transfer_C6_amended (s : ReceiverState) (c : List Nat) (h : s.motor = false) :
    receiverOnBinary s c
      = { s with chunks := s.chunks ++ [c],
                 bytesReceived := s.bytesReceived + c.length } := by
  unfold receiverOnBinary
  simp [h]

/-- Witness for the amended C6 at a concrete state and chunk. -/
theorem transfer_C6_witness :
    emptyReceiver.motor = false
    ∧ receiverOnBinary emptyReceiver [1]
        = { emptyReceiver with chunks := [[1]], bytesReceived := 1 } :=
  ⟨rfl, transfer_C6_amended emptyReceiver [1] rfl⟩

/-- Counterexample to C7: the final chunk of a 10000000 byte file pumped
with 65536 byte chunks has 10000000 mod 65536 = 38528 bytes, not 16960. -/
theorem transfer_C7_counterexample :
    (pumpChunkSizes 65536 10000000).getLast? = some 38528
    ∧ (some (38528 : Nat)) ≠ some 16960 := by
  constructor
  · rw [pumpChunkSizes_eq 65536 (by decide) 10000000 (by decide),
        List.getLast?_concat]
  · decide

/-- Claim C7 amended: a 10000000 byte source with chunk size 65536 yields
exactly 153 chunks, the final one of 38528 = 10000000 mod 65536 bytes, the
chunk lengths sum to 10000000 (so bytesTransferred reaches 10000000),
exactly one end message is sent, the receiver acks exactly once (the end
handler is the only ack site), and progress reaches 100. -/
theorem transfer_C7_amended :
    (pumpChunkSizes 65536 10000000).length = 153
    ∧ (pumpChunkSizes 65536 10000000).getLast? = some 38528
    ∧ (pumpChunkSizes 65536 10000000).sum = 10000000
    ∧ (senderWire (pumpChunkSizes 65536 10000000)).count WireMsg.endMsg = 1
    ∧ (∀ s : ReceiverState, (receiverOnEnd s).2 = true)
    ∧ progressPercent 10000000 10000000 = 100 := by
  have hcs : (0 : Nat) < 65536 := by decide
  have hmod : (10000000 : Nat) % 65536 ≠ 0 := by decide
  have hform := pumpChunkSizes_eq 65536 hcs 10000000 hmod
  refine ⟨?_, ?_, pumpChunkSizes_sum _ _ hcs hmod, senderWire_end_count _,
          receiverOnEnd_ack, by decide⟩
  · rw [hform]
    simp only [List.length_append, List.length_replicate, List.length_cons,
               List.length_nil]
  · rw [hform, List.getLast?_concat]

/-- A motor session of the per-chunk writing receiver in which the write
of the middle chunk fails: chunks 12, 34, 56 with outcomes ok, fail, ok. -/
def c8run : StreamState :=
  receiverOnBinaryWrite
    (receiverOnBinaryWrite
      (receiverOnBinaryWrite (StreamState.mk true [] [] 0) [1, 2] true)
      [3, 4] false)
    [5, 6] true

/-- Claim C8 is what the spec intends but the code does not do: after the
failed write the stream stays open (the next chunk goes back to the disk,
not to the accumulator), the failed chunk bytes are missing from the byte
counter (4 of 6), and the bytes end up split between disk and memory out
of order, so no reconstruction equals the original content. -/
theorem transfer_C8_failing :
    c8run.motor = true
    ∧ c8run.bytesReceived = 4
    ∧ c8run.diskBytes = [1, 2, 5, 6]
    ∧ c8run.chunks = [[3, 4]]
    ∧ c8run.diskBytes ≠ [1, 2, 3, 4, 5, 6]
    ∧ c8run.diskBytes ++ c8run.chunks.flatten ≠ [1, 2, 3, 4, 5, 6]
    ∧ c8run.bytesReceived ≠ 6 := by
  decide

/-- Claim C9: a failed send leaves the pump state unchanged - the
schedule entry is simply skipped - and under any schedule of failures and
successes the successfully sent chunks are exactly the leading prefix of
the canonical chunk sequence, so no byte is skipped or duplicated. -/
theorem transfer_C9_retry_exact (cs : Nat) (hcs : 0 < cs) :
    (∀ (sch : List Bool) (rest : List Nat),
        pumpSched cs (false :: sch) rest = pumpSched cs sch rest)
    ∧ (∀ (sch : List Bool) (content : List Nat),
        pumpSched cs sch content = (pumpChunks cs content).take (sch.count true)) :=
  ⟨fun _ _ => rfl, pumpSched_eq_take cs hcs⟩

/-- Witness for C9: a schedule with one failure sends the same chunks as
its three successes alone. -/
theorem transfer_C9_witness :
    (0 : Nat) < 2
    ∧ pumpSched 2 [false, true, true, true] [1, 2, 3, 4, 5]
        = (pumpChunks 2 [1, 2, 3, 4, 5]).take 3 := by
  refine ⟨by decide, ?_⟩
  have h := (transfer_C9_retry_exact 2 (by decide)).2 [false, true, true, true] [1, 2, 3, 4, 5]
  have hc : ([false, true, true, true] : List Bool).count true = 3 := by decide
  rw [hc] at h
  exact h

/-- Claim C10: for a positive announced size the computed progress value
is clamped by the min to at most 100, even when more bytes than the
announced size have arrived. -/
theorem transfer_C10_clamped (s : ReceiverState) (m : FileMeta)
    (hm : s.meta = some m) (ht : 0 < m.size) :
    (updateProgress s).transferProgress ≤ 100 := by
  have hval : updateProgress s
      = { s with transferProgress := progressPercent s.bytesReceived m.size } := by
    unfold updateProgress
    rw [hm]
  rw [hval]
  exact min_le_left _ _

/-- A receiver state whose byte counter exceeds the announced size. -/
def overshootState : ReceiverState :=
  { emptyReceiver with
      meta := some (FileMeta.mk "f" 100 "bin"),
      bytesReceived := 250 }

/-- Witness for C10: 250 bytes received against an announced size of 100
still reports at most 100. -/
theorem transfer_C10_witness :
    overshootState.meta = some (FileMeta.mk "f" 100 "bin")
    ∧ (0 : Nat) < (FileMeta.mk "f" 100 "bin").size
    ∧ (updateProgress overshootState).transferProgress ≤ 100 :=
  ⟨rfl, by decide,
   transfer_C10_clamped overshootState (FileMeta.mk "f" 100 "bin") rfl (by decide)⟩
